import Mathlib

/-!
Shallow embedding of the time-series analytics core of the TRM repository
(`src/domain/services/trm_service.py`, the range filters in
`python_app/trm_app.py`, `trm_data_loader.py`,
`src/application/services/trm_application_service.py` and
`python_app/src/infrastructure/repositories/trm_repository.py`).

Modelling conventions:
* a calendar date (day precision) is an `Int` ordinal;
* a TRM value is a rational number `ℚ` (the Python floats carry no claim
  that depends on rounding; divide-by-zero spots are discussed at the
  theorems that touch them);
* a pandas `NaN` cell is `Option.none`;
* `pandas.sort_values` on the date column is modelled by a stable
  insertion sort on the date key (dates are unique by the data-model
  invariant, so stability is immaterial);
* a date-string argument that may fail to parse is modelled as
  `Option (Option Int)`: `none` = argument absent, `some none` = argument
  present but unparseable, `some (some d)` = argument parsing to `d`.
-/

/-- One observation of the series: `TRMData(fecha, valor)` from
`src/domain/models/trm.py`. -/
structure TRMData where
  fecha : Int
  valor : ℚ
deriving DecidableEq, Repr

/-- The sort key used by `df.sort_values('fecha')`. -/
def dateLe (a b : TRMData) : Prop := a.fecha ≤ b.fecha

instance : DecidableRel dateLe := fun a b =>
  inferInstanceAs (Decidable (a.fecha ≤ b.fecha))

instance : IsTotal TRMData dateLe := ⟨fun a b => le_total a.fecha b.fecha⟩

instance : IsTrans TRMData dateLe := ⟨fun _ _ _ h h2 => le_trans h h2⟩

/-- `df = df.sort_values('fecha')`: sort the rows ascending by date. -/
def sortByDate (data : List TRMData) : List TRMData :=
  List.insertionSort dateLe data

/-- `Series.min()`: minimum of a column, with a default for the empty
column (the services only call it on non-empty data). -/
def listMin {α : Type} [LinearOrder α] (d : α) : List α → α
  | [] => d
  | x :: xs => xs.foldl min x

/-- `Series.max()`: maximum of a column, with a default for the empty
column. -/
def listMax {α : Type} [LinearOrder α] (d : α) : List α → α
  | [] => d
  | x :: xs => xs.foldl max x

/-- `Series.mean()`: arithmetic mean (sum over length). -/
def mean (l : List ℚ) : ℚ := l.sum / l.length

/-- `Series.median()`: sort the values; middle element when the length is
odd, average of the two middle elements when it is even. -/
def median (l : List ℚ) : ℚ :=
  let s := List.insertionSort (· ≤ ·) l
  let n := s.length
  if n % 2 = 1 then s.getD (n / 2) 0
  else (s.getD (n / 2 - 1) 0 + s.getD (n / 2) 0) / 2

/-- The sample variance with denominator `n − 1` (pandas `ddof=1`).
`Series.std()` is the square root of this quantity; the square root of a
rational is irrational in general, and no claim concerns the numeric value
of the standard deviation, so the embedding carries the variance and the
`none`/`some` distinction (pandas `NaN` for `n < 2`) exactly. -/
def sampleVariance (l : List ℚ) : ℚ :=
  (l.map (fun x => (x - mean l) ^ 2)).sum / ((l.length : ℚ) - 1)

/-- `TRMStatistics` from `src/domain/models/trm.py`; `std_dev = none`
models the pandas `NaN` produced by `Series.std()` on fewer than two
rows (see `sampleVariance` for the `some` payload). -/
structure TRMStatistics where
  min_value : ℚ
  max_value : ℚ
  avg_value : ℚ
  median_value : ℚ
  std_dev : Option ℚ
  count : Nat
  start_date : Int
  end_date : Int
  start_value : ℚ
  end_value : ℚ
  change : ℚ
  change_pct : ℚ
deriving DecidableEq, Repr

/-- `TRMService.calculate_statistics` (`trm_service.py` lines 19-55):
`None` on empty input, otherwise sort by date and read the summary
columns; `start_value`/`end_value` are positional (`iloc[0]`,
`iloc[-1]`) on the sorted frame. -/
def calculate_statistics (data : List TRMData) : Option TRMStatistics :=
  match data with
  | [] => none
  | _ :: _ =>
    let df := sortByDate data
    let vals := df.map (·.valor)
    let first := df.headD ⟨0, 0⟩
    let last := df.getLastD ⟨0, 0⟩
    some {
      min_value := listMin 0 vals
      max_value := listMax 0 vals
      avg_value := mean vals
      median_value := median vals
      std_dev := if vals.length < 2 then none else some (sampleVariance vals)
      count := df.length
      start_date := listMin 0 (df.map (·.fecha))
      end_date := listMax 0 (df.map (·.fecha))
      start_value := first.valor
      end_value := last.valor
      change := last.valor - first.valor
      change_pct := (last.valor / first.valor - 1) * 100 }

/-- One cell of the `df['trm'].rolling(window=w).mean()` column, for the
window values pandas accepts (`w ≥ 0`).  For a positive window `w`, row
`i` holds the mean of the trailing `w` rows once `i + 1 ≥ w`, and `NaN`
(here `none`) before that.  For `w = 0` every cell stays `NaN` (the mean
over an empty window), which the `1 ≤ w` guard reproduces.  A negative
window never reaches this column: `Series.rolling` itself raises
`ValueError` at construction, which `calculate_moving_average_exc`
models. -/
def rollingEntry (vals : List ℚ) (w : Int) (i : Nat) : Option ℚ :=
  if 1 ≤ w ∧ w.toNat ≤ i + 1 then
    some (mean ((vals.take (i + 1)).drop (i + 1 - w.toNat)))
  else none

/-- The whole rolling-mean column for a value column `vals`. -/
def rollingMean (vals : List ℚ) (w : Int) : List (Option ℚ) :=
  (List.range vals.length).map (rollingEntry vals w)

/-- `TRMMovingAverage` from `src/domain/models/trm.py`;
`promedio_movil = none` models the pandas `NaN` turned into Python `None`
by the `pd.isna` check in `calculate_moving_average`. -/
structure TRMMovingAverage where
  fecha : Int
  valor : ℚ
  promedio_movil : Option ℚ
  window : Int
deriving DecidableEq, Repr

/-- `TRMService.calculate_moving_average` (`trm_service.py` lines 57-92):
`[]` on empty input, otherwise sort by date, attach the rolling-mean
column and re-emit one record per row.  This total function covers the
windows pandas accepts (`w ≥ 0`, and any `w` on empty input, where the
guard returns before pandas is touched); the `ValueError` that a
negative window raises on non-empty input is modelled by the wrapper
`calculate_moving_average_exc` below. -/
def calculate_moving_average (data : List TRMData) (w : Int) :
    List TRMMovingAverage :=
  match data with
  | [] => []
  | _ :: _ =>
    let df := sortByDate data
    let ma := rollingMean (df.map (·.valor)) w
    (df.zip ma).map (fun p =>
      { fecha := p.1.fecha, valor := p.1.valor
        promedio_movil := p.2, window := w })

/-- `TRMService.calculate_moving_average` including the pandas error
path: on non-empty data, `df['trm'].rolling(window=w)` validates the
window and raises `ValueError` for `w < 0` (modelled as
`Except.error ()`) before any column is computed; for `w ≥ 0` the call
succeeds and yields the rows of `calculate_moving_average`.  On empty
data the `if not data` guard returns `[]` before pandas is touched, so
no window raises there. -/
def calculate_moving_average_exc (data : List TRMData) (w : Int) :
    Except Unit (List TRMMovingAverage) :=
  match data with
  | [] => Except.ok []
  | _ :: _ =>
    if w < 0 then Except.error ()
    else Except.ok (calculate_moving_average data w)

/-- One cell of the `df['trm'].pct_change() * 100` column: `NaN` (`none`)
at row 0, `(value[i]/value[i-1] − 1) × 100` afterwards. -/
def pctEntry (vals : List ℚ) (i : Nat) : Option ℚ :=
  if i = 0 then none
  else some ((vals.getD i 0 / vals.getD (i - 1) 0 - 1) * 100)

/-- The sorted dataframe rows paired with their `var_pct` column cell. -/
def withVarPct (df : List TRMData) : List (TRMData × Option ℚ) :=
  (List.range df.length).map (fun i =>
    (df.getD i ⟨0, 0⟩, pctEntry (df.map (·.valor)) i))

/-- `TRMVariation` from `src/domain/models/trm.py`. -/
structure TRMVariation where
  fecha : Int
  valor : ℚ
  variacion_pct : ℚ
deriving DecidableEq, Repr

/-- `TRMService.find_extreme_variations` (`trm_service.py` lines 94-131):
`[]` on empty input, otherwise sort by date, compute `var_pct`, keep the
rows with `abs(var_pct) > threshold_pct` and re-emit them as records.
A `NaN` cell (`none`) fails the comparison, so row 0 is never kept; the
`pd.isna` guard inside the final loop is subsumed by that filter. -/
def find_extreme_variations (data : List TRMData) (threshold_pct : ℚ) :
    List TRMVariation :=
  match data with
  | [] => []
  | _ :: _ =>
    let df := sortByDate data
    ((withVarPct df).filter (fun p =>
        match p.2 with
        | none => false
        | some v => decide (threshold_pct < |v|))).map (fun p =>
      { fecha := p.1.fecha, valor := p.1.valor
        variacion_pct := p.2.getD 0 })

/-- Restatement of spec section 4.4 in its own words, for comparison with
`find_extreme_variations`: for each index `i ≥ 1` of the date-sorted
series, emit a record iff `|(value[i]/value[i-1] − 1) × 100|` strictly
exceeds the threshold, in chronological order. -/
def extremeVariationsSpec (data : List TRMData) (threshold_pct : ℚ) :
    List TRMVariation :=
  let df := sortByDate data
  let vals := df.map (·.valor)
  (List.range df.length).filterMap (fun i =>
    let pc := (vals.getD i 0 / vals.getD (i - 1) 0 - 1) * 100
    if 1 ≤ i ∧ threshold_pct < |pc| then
      some { fecha := (df.getD i ⟨0, 0⟩).fecha
             valor := (df.getD i ⟨0, 0⟩).valor
             variacion_pct := pc }
    else none)

/-- `TRMDataLoader.get_data_range` from `python_app/trm_app.py`
(lines 53-83): each given bound is parsed inside a `try`; a bound that
fails to parse is skipped (`except: pass`), i.e. no filtering happens for
it.  Argument encoding: `none` = bound absent, `some none` = bound given
but unparseable, `some (some d)` = bound given and parsing to `d`. -/
def get_data_range (data : List TRMData) (a b : Option (Option Int)) :
    List TRMData :=
  let f1 := match a with
    | some (some d) => data.filter (fun o => decide (d ≤ o.fecha))
    | _ => data
  match b with
  | some (some d) => f1.filter (fun o => decide (o.fecha ≤ d))
  | _ => f1

/-- `TRMRepository.get_by_date_range` from
`python_app/src/infrastructure/repositories/trm_repository.py`
(lines 77-109), restricted to its filtering core over the loaded series:
keep dates `≥ start_date` (if given) then dates `≤ end_date` (if given),
preserving order.  Bounds here are already `date` objects, so no parsing
is involved. -/
def get_by_date_range (data : List TRMData) (a b : Option Int) :
    List TRMData :=
  let f1 := match a with
    | some d => data.filter (fun o => decide (d ≤ o.fecha))
    | none => data
  match b with
  | some d => f1.filter (fun o => decide (o.fecha ≤ d))
  | none => f1

/-- The bound-parsing step of
`TRMApplicationService.get_trm_data` (`trm_application_service.py`
lines 41-42): `date.fromisoformat` raises `ValueError` on an unparseable
string (there is no `try` around it), modelled as `Except.error ()`. -/
def parseBound : Option (Option Int) → Except Unit (Option Int)
  | none => Except.ok none
  | some none => Except.error ()
  | some (some d) => Except.ok (some d)

/-- `TRMApplicationService.get_trm_data` (`trm_application_service.py`
lines 30-46): parse both bounds with `date.fromisoformat` (propagating
the `ValueError` of an unparseable one), then delegate to the repository
range filter. -/
def get_trm_data (data : List TRMData) (a b : Option (Option Int)) :
    Except Unit (List TRMData) := do
  let ad ← parseBound a
  let bd ← parseBound b
  Except.ok (get_by_date_range data ad bd)

/-! ### Helper lemmas about the embedded operations -/

lemma sortByDate_perm (data : List TRMData) : List.Perm (sortByDate data) data :=
  List.perm_insertionSort _ _

lemma sortByDate_length (data : List TRMData) :
    (sortByDate data).length = data.length :=
  (sortByDate_perm data).length_eq

lemma sortByDate_sorted (data : List TRMData) :
    List.Sorted dateLe (sortByDate data) :=
  List.sorted_insertionSort _ _

lemma sortByDate_ne_nil {data : List TRMData} (h : data ≠ []) :
    sortByDate data ≠ [] := by
  intro hc
  apply h
  have hl := sortByDate_length data
  rw [hc] at hl
  exact List.length_eq_zero.mp hl.symm

lemma foldl_min_le_init {α : Type} [LinearOrder α] (xs : List α) (a : α) :
    xs.foldl min a ≤ a := by
  induction xs generalizing a with
  | nil => simp
  | cons x xs ih => exact le_trans (ih (min a x)) (min_le_left a x)

lemma foldl_min_le_mem {α : Type} [LinearOrder α] {y : α} (xs : List α)
    (a : α) (hy : y ∈ xs) : xs.foldl min a ≤ y := by
  induction xs generalizing a with
  | nil => cases hy
  | cons x xs ih =>
    rcases List.mem_cons.mp hy with rfl | h
    · exact le_trans (foldl_min_le_init xs (min a y)) (min_le_right a y)
    · exact ih (min a x) h

lemma listMin_le_mem {α : Type} [LinearOrder α] {y : α} {l : List α}
    (d : α) (hy : y ∈ l) : listMin d l ≤ y := by
  cases l with
  | nil => cases hy
  | cons x xs =>
    rcases List.mem_cons.mp hy with rfl | h
    · exact foldl_min_le_init xs y
    · exact foldl_min_le_mem xs x h

lemma init_le_foldl_max {α : Type} [LinearOrder α] (xs : List α) (a : α) :
    a ≤ xs.foldl max a := by
  induction xs generalizing a with
  | nil => simp
  | cons x xs ih => exact le_trans (le_max_left a x) (ih (max a x))

lemma mem_le_foldl_max {α : Type} [LinearOrder α] {y : α} (xs : List α)
    (a : α) (hy : y ∈ xs) : y ≤ xs.foldl max a := by
  induction xs generalizing a with
  | nil => cases hy
  | cons x xs ih =>
    rcases List.mem_cons.mp hy with rfl | h
    · exact le_trans (le_max_right a y) (init_le_foldl_max xs (max a y))
    · exact ih (max a x) h

lemma mem_le_listMax {α : Type} [LinearOrder α] {y : α} {l : List α}
    (d : α) (hy : y ∈ l) : y ≤ listMax d l := by
  cases l with
  | nil => cases hy
  | cons x xs =>
    rcases List.mem_cons.mp hy with rfl | h
    · exact init_le_foldl_max xs y
    · exact mem_le_foldl_max xs x h

lemma listMin_le_mean {l : List ℚ} (h : l ≠ []) : listMin 0 l ≤ mean l := by
  have hn : (0 : ℚ) < l.length := by
    exact_mod_cast List.length_pos.mpr h
  have hsum : l.length • listMin 0 l ≤ l.sum :=
    List.card_nsmul_le_sum l _ (fun x hx => listMin_le_mem 0 hx)
  rw [mean, le_div_iff₀ hn]
  calc listMin 0 l * l.length = l.length • listMin 0 l := by
        rw [nsmul_eq_mul, mul_comm]
    _ ≤ l.sum := hsum

lemma mean_le_listMax {l : List ℚ} (h : l ≠ []) : mean l ≤ listMax 0 l := by
  have hn : (0 : ℚ) < l.length := by
    exact_mod_cast List.length_pos.mpr h
  have hsum : l.sum ≤ l.length • listMax 0 l :=
    List.sum_le_card_nsmul l _ (fun x hx => mem_le_listMax 0 hx)
  rw [mean, div_le_iff₀ hn]
  calc l.sum ≤ l.length • listMax 0 l := hsum
    _ = listMax 0 l * l.length := by rw [nsmul_eq_mul, mul_comm]

lemma median_bounds {l : List ℚ} (h : l ≠ []) :
    listMin 0 l ≤ median l ∧ median l ≤ listMax 0 l := by
  have hperm : List.Perm (List.insertionSort (· ≤ ·) l) l := List.perm_insertionSort _ l
  have hlen : (List.insertionSort (· ≤ ·) l).length = l.length := hperm.length_eq
  have hpos : 0 < l.length := List.length_pos.mpr h
  have hslen : 0 < (List.insertionSort (· ≤ ·) l).length := hlen ▸ hpos
  have hmem : ∀ i, i < (List.insertionSort (· ≤ ·) l).length →
      (List.insertionSort (· ≤ ·) l).getD i 0 ∈ l := by
    intro i hi
    rw [List.getD_eq_getElem _ 0 hi]
    exact hperm.mem_iff.mp (List.getElem_mem hi)
  have hhalf : (List.insertionSort (· ≤ ·) l).length / 2 <
      (List.insertionSort (· ≤ ·) l).length := Nat.div_lt_self hslen (by omega)
  have hhalf1 : (List.insertionSort (· ≤ ·) l).length / 2 - 1 <
      (List.insertionSort (· ≤ ·) l).length :=
    lt_of_le_of_lt (Nat.sub_le _ _) hhalf
  have hm1 := hmem _ hhalf
  have hm2 := hmem _ hhalf1
  have hlo1 := listMin_le_mem 0 hm1
  have hhi1 := mem_le_listMax 0 hm1
  have hlo2 := listMin_le_mem 0 hm2
  have hhi2 := mem_le_listMax 0 hm2
  rw [median]
  by_cases hpar : (List.insertionSort (· ≤ ·) l).length % 2 = 1
  · simp only [hpar, if_pos]
    exact ⟨hlo1, hhi1⟩
  · simp only [hpar, if_neg, if_false]
    constructor
    · linarith
    · linarith

lemma filter_filter_same {α : Type} (p : α → Bool) (l : List α) :
    (l.filter p).filter p = l.filter p := by
  induction l with
  | nil => rfl
  | cons x xs ih =>
    by_cases hx : p x <;> simp [List.filter_cons, hx, ih]

lemma filter_swap {α : Type} (p q : α → Bool) (l : List α) :
    (l.filter p).filter q = (l.filter q).filter p := by
  induction l with
  | nil => rfl
  | cons x xs ih =>
    by_cases hp : p x <;> by_cases hq : q x <;>
      simp [List.filter_cons, hp, hq, ih]

lemma filterMap_ite {α β : Type} (P : α → Prop) [DecidablePred P]
    (r : α → β) (l : List α) :
    l.filterMap (fun i => if P i then some (r i) else none) =
      (l.filter (fun i => decide (P i))).map r := by
  induction l with
  | nil => rfl
  | cons x xs ih =>
    by_cases hx : P x <;>
      simp [List.filterMap_cons, List.filter_cons, hx, ih]

lemma take_drop_singleton (l : List ℚ) (i : Nat) (hi : i < l.length) :
    (l.take (i + 1)).drop i = [l.getD i 0] := by
  induction l generalizing i with
  | nil => simp at hi
  | cons x xs ih =>
    cases i with
    | zero => simp
    | succ j => simpa using ih j (by simpa using hi)

lemma mean_singleton (a : ℚ) : mean [a] = a := by
  simp [mean]

/-! ### Claim theorems -/

/-- C1: for every non-empty series, `calculate_statistics` sorts the
series ascending by date and takes `start_value`/`end_value` positionally
from the first and last row of the sorted series, with
`change = end − start` and `change_pct = (end/start − 1) × 100`. -/
theorem claim1_statistics_positional (data : List TRMData) (h : data ≠ []) :
    ∃ st, calculate_statistics data = some st ∧
      List.Sorted dateLe (sortByDate data) ∧
      List.Perm (sortByDate data) data ∧
      st.start_value = ((sortByDate data).headD ⟨0, 0⟩).valor ∧
      st.end_value = ((sortByDate data).getLastD ⟨0, 0⟩).valor ∧
      st.change = st.end_value - st.start_value ∧
      st.change_pct = (st.end_value / st.start_value - 1) * 100 := by
  cases data with
  | nil => exact absurd rfl h
  | cons x xs =>
    exact ⟨_, rfl, sortByDate_sorted _, sortByDate_perm _, rfl, rfl, rfl, rfl⟩

/-- Witness for C1 at the concrete two-row unsorted series
`[(date 1, 50), (date 0, 200)]`. -/
theorem claim1_witness :
    ∃ st, calculate_statistics [⟨1, 50⟩, ⟨0, 200⟩] = some st ∧
      List.Sorted dateLe (sortByDate [⟨1, 50⟩, ⟨0, 200⟩]) ∧
      List.Perm (sortByDate [⟨1, 50⟩, ⟨0, 200⟩]) [⟨1, 50⟩, ⟨0, 200⟩] ∧
      st.start_value = ((sortByDate [⟨1, 50⟩, ⟨0, 200⟩]).headD ⟨0, 0⟩).valor ∧
      st.end_value = ((sortByDate [⟨1, 50⟩, ⟨0, 200⟩]).getLastD ⟨0, 0⟩).valor ∧
      st.change = st.end_value - st.start_value ∧
      st.change_pct = (st.end_value / st.start_value - 1) * 100 :=
  claim1_statistics_positional [⟨1, 50⟩, ⟨0, 200⟩] (by decide)

/-- C4: on the empty series, statistics is absent, the moving average is
the empty sequence and the extreme variations are the empty sequence; no
error is raised (all three are total functions). -/
theorem claim4_empty_series (w : Int) (t : ℚ) :
    calculate_statistics [] = none ∧
    calculate_moving_average [] w = [] ∧
    find_extreme_variations [] t = [] :=
  ⟨rfl, rfl, rfl⟩

/-- C6 fails as stated: at the single-point series with value 0 the code
computes `change_pct = (0/0 − 1) × 100`, which is not 0 (it is `NaN` in
the floating implementation and `−100` in this rational embedding, where
division by zero yields zero). -/
theorem claim6_counterexample :
    (calculate_statistics [⟨0, 0⟩]).map TRMStatistics.change_pct
        = some (-100) ∧ ((-100 : ℚ) ≠ 0) := by
  constructor
  · simp only [calculate_statistics, sortByDate, List.insertionSort,
      List.orderedInsert, Option.map_some]
    norm_num
  · norm_num

/-- C6 amended: for every single-point series, statistics is defined with
`std_dev` absent (`NaN`, never 0) and `change = 0`; `change_pct = 0`
holds whenever the value is nonzero (for value 0 it is the divide-by-zero
result instead). -/
theorem claim6_amended (d : Int) (v : ℚ) :
    ∃ st, calculate_statistics [⟨d, v⟩] = some st ∧
      st.std_dev = none ∧ st.change = 0 ∧
      (v ≠ 0 → st.change_pct = 0) := by
  refine ⟨_, rfl, rfl, ?_, ?_⟩
  · show v - v = 0
    exact sub_self v
  · intro hv
    show (v / v - 1) * 100 = 0
    rw [div_self hv]
    norm_num

/-- Witness for C6 (amended) at the single point `(date 0, value 100)`. -/
theorem claim6_amended_witness :
    ∃ st, calculate_statistics [⟨0, 100⟩] = some st ∧
      st.std_dev = none ∧ st.change = 0 ∧ st.change_pct = 0 := by
  obtain ⟨st, h1, h2, h3, h4⟩ := claim6_amended 0 100
  exact ⟨st, h1, h2, h3, h4 (by norm_num)⟩

/-- C7 fails as stated: with the one-row series `[(date 0, 1)]` and an
unparseable start bound, `TRMDataLoader.get_data_range` returns the whole
(non-empty) series — the bad bound is ignored, not turned into an empty
result — while the application-service path `get_trm_data`, which parses
with `date.fromisoformat`, raises (`Except.error`) instead of returning
anything. -/
theorem claim7_counterexample :
    get_data_range [⟨0, 1⟩] (some none) none = [⟨0, 1⟩] ∧
    get_trm_data [⟨0, 1⟩] (some none) none = Except.error () ∧
    ([(⟨0, 1⟩ : TRMData)] : List TRMData) ≠ [] :=
  ⟨rfl, rfl, by decide⟩

/-- C7 amended: a bound that fails to parse is ignored by
`TRMDataLoader.get_data_range` (the filter behaves exactly as if that
bound had not been given, so the result is in general non-empty), while
`TRMApplicationService.get_trm_data` propagates the parse error as an
exception; no path returns an empty series because of a parse failure. -/
theorem claim7_amended (data : List TRMData) (a b : Option (Option Int)) :
    get_data_range data (some none) b = get_data_range data none b ∧
    get_data_range data a (some none) = get_data_range data a none ∧
    get_trm_data data (some none) b = Except.error () ∧
    get_trm_data data a (some none) = Except.error () := by
  refine ⟨rfl, ?_, rfl, ?_⟩
  · rcases a with _ | _ | d <;> rfl
  · rcases a with _ | _ | d <;> rfl

/-- C8: the repository range filter is idempotent — filtering an already
filtered series by the same bounds changes nothing. -/
theorem claim8_filter_idempotent (data : List TRMData) (a b : Option Int) :
    get_by_date_range (get_by_date_range data a b) a b
      = get_by_date_range data a b := by
  rcases a with _ | av <;> rcases b with _ | bv
  · rfl
  · exact filter_filter_same _ _
  · exact filter_filter_same _ _
  · show (((data.filter (fun o => decide (av ≤ o.fecha))).filter
        (fun o => decide (o.fecha ≤ bv))).filter
        (fun o => decide (av ≤ o.fecha))).filter
        (fun o => decide (o.fecha ≤ bv))
      = (data.filter (fun o => decide (av ≤ o.fecha))).filter
        (fun o => decide (o.fecha ≤ bv))
    rw [filter_swap (fun o : TRMData => decide (o.fecha ≤ bv))
        (fun o : TRMData => decide (av ≤ o.fecha))
        (List.filter (fun o : TRMData => decide (av ≤ o.fecha)) data),
      filter_filter_same, filter_filter_same]

lemma cma_length (data : List TRMData) (w : Int) :
    (calculate_moving_average data w).length = data.length := by
  cases data with
  | nil => rfl
  | cons x xs =>
    simp [calculate_moving_average, rollingMean, List.length_zip,
      sortByDate_length]

lemma zip_map_proj (l : List TRMData) (m : List (Option ℚ)) (w : Int)
    (hlm : l.length ≤ m.length) :
    ((l.zip m).map (fun p : TRMData × Option ℚ =>
        ({ fecha := p.1.fecha, valor := p.1.valor,
           promedio_movil := p.2, window := w } : TRMMovingAverage))).map
        (fun p => (p.fecha, p.valor))
      = l.map (fun o => (o.fecha, o.valor)) := by
  rw [List.map_map]
  have hcomp : ((fun p : TRMMovingAverage => (p.fecha, p.valor)) ∘
      (fun p : TRMData × Option ℚ =>
        ({ fecha := p.1.fecha, valor := p.1.valor,
           promedio_movil := p.2, window := w } : TRMMovingAverage)))
      = (fun o : TRMData => (o.fecha, o.valor)) ∘ Prod.fst := rfl
  rw [hcomp, ← List.map_map, List.map_fst_zip l m hlm]

lemma cma_proj (data : List TRMData) (w : Int) :
    (calculate_moving_average data w).map (fun p => (p.fecha, p.valor))
      = (sortByDate data).map (fun o => (o.fecha, o.valor)) := by
  cases data with
  | nil => rfl
  | cons x xs =>
    exact zip_map_proj (sortByDate (x :: xs)) _ w (by simp [rollingMean])

/-- C5 fails as stated: at the non-empty two-row series with window −3
(a window ≤ 0), pandas' window validation in `Series.rolling` raises
`ValueError` (`Except.error ()` in the embedding), so the call raises an
error instead of returning every point with the moving-average field
absent. -/
theorem claim5_counterexample :
    ([(⟨0, 1⟩ : TRMData), ⟨1, 2⟩] : List TRMData) ≠ [] ∧
    ((-3 : Int) ≤ 0) ∧
    calculate_moving_average_exc [⟨0, 1⟩, ⟨1, 2⟩] (-3) = Except.error () :=
  ⟨by decide, by norm_num, rfl⟩

/-- C5 amended: on a non-empty series, window 0 — the only non-positive
window pandas accepts — returns every point with the moving-average
field absent and raises no error, while every negative window raises
`ValueError` from the window validation instead of returning points. -/
theorem claim5_amended (data : List TRMData) (w : Int) (h : data ≠ []) :
    calculate_moving_average_exc data 0
        = Except.ok (calculate_moving_average data 0) ∧
    (calculate_moving_average data 0).length = data.length ∧
    (∀ p ∈ calculate_moving_average data 0, p.promedio_movil = none) ∧
    (w < 0 → calculate_moving_average_exc data w = Except.error ()) := by
  cases data with
  | nil => exact absurd rfl h
  | cons x xs =>
    refine ⟨rfl, cma_length _ 0, ?_, ?_⟩
    · intro p hp
      obtain ⟨q, hq, rfl⟩ := List.mem_map.mp hp
      obtain ⟨a, b⟩ := q
      have h2 : b ∈ rollingMean ((sortByDate (x :: xs)).map (·.valor)) 0 :=
        (List.of_mem_zip hq).2
      obtain ⟨i, hi, hbb⟩ := List.mem_map.mp h2
      show b = none
      rw [← hbb, rollingEntry, if_neg]
      intro hcon
      omega
    · intro hneg
      show (if w < 0 then (Except.error () : Except Unit (List TRMMovingAverage))
          else Except.ok (calculate_moving_average (x :: xs) w))
        = Except.error ()
      rw [if_pos hneg]

/-- Witness for C5 (amended) at the two-row series, exercising both the
window-0 branch and the raising branch at window −3. -/
theorem claim5_amended_witness :
    calculate_moving_average_exc [⟨0, 1⟩, ⟨1, 2⟩] 0
        = Except.ok (calculate_moving_average [⟨0, 1⟩, ⟨1, 2⟩] 0) ∧
    (calculate_moving_average [⟨0, 1⟩, ⟨1, 2⟩] 0).length
        = ([(⟨0, 1⟩ : TRMData), ⟨1, 2⟩] : List TRMData).length ∧
    (∀ p ∈ calculate_moving_average [⟨0, 1⟩, ⟨1, 2⟩] 0,
        p.promedio_movil = none) ∧
    calculate_moving_average_exc [⟨0, 1⟩, ⟨1, 2⟩] (-3) = Except.error () := by
  obtain ⟨h1, h2, h3, h4⟩ := claim5_amended [⟨0, 1⟩, ⟨1, 2⟩] (-3) (by decide)
  exact ⟨h1, h2, h3, h4 (by norm_num)⟩

/-- C9: for every non-empty series, `count` equals the series length, and
both the mean and the median lie between the reported min and max. -/
theorem claim9_statistics_bounds (data : List TRMData) (h : data ≠ []) :
    ∃ st, calculate_statistics data = some st ∧
      st.count = data.length ∧
      st.min_value ≤ st.avg_value ∧ st.avg_value ≤ st.max_value ∧
      st.min_value ≤ st.median_value ∧ st.median_value ≤ st.max_value := by
  cases data with
  | nil => exact absurd rfl h
  | cons x xs =>
    have hne : sortByDate (x :: xs) ≠ [] := sortByDate_ne_nil (by simp)
    have hvals : (sortByDate (x :: xs)).map (·.valor) ≠ [] := by
      simpa [List.map_eq_nil_iff] using hne
    refine ⟨_, rfl, ?_, ?_, ?_, ?_, ?_⟩
    · exact sortByDate_length _
    · exact listMin_le_mean hvals
    · exact mean_le_listMax hvals
    · exact (median_bounds hvals).1
    · exact (median_bounds hvals).2

/-- Witness for C9 at the three-row series of the spec example. -/
theorem claim9_witness :
    ∃ st, calculate_statistics [⟨1, 100⟩, ⟨2, 110⟩, ⟨3, 99⟩] = some st ∧
      st.count = ([(⟨1, 100⟩ : TRMData), ⟨2, 110⟩, ⟨3, 99⟩] : List TRMData).length ∧
      st.min_value ≤ st.avg_value ∧ st.avg_value ≤ st.max_value ∧
      st.min_value ≤ st.median_value ∧ st.median_value ≤ st.max_value :=
  claim9_statistics_bounds [⟨1, 100⟩, ⟨2, 110⟩, ⟨3, 99⟩] (by decide)

/-- C10: for every non-empty series and window `w ≥ 1`,
`calculate_moving_average` returns one output point per input row — the
same length as the input, carrying each observation's date and value
unchanged, in ascending date order; the window only determines the
moving-average column, which the date/value projection ignores. -/
theorem claim10_moving_average_shape (data : List TRMData) (w : Int)
    (h : data ≠ []) (hw : 1 ≤ w) :
    (calculate_moving_average data w).length = data.length ∧
    (calculate_moving_average data w).map (fun p => (p.fecha, p.valor))
      = (sortByDate data).map (fun o => (o.fecha, o.valor)) ∧
    List.Pairwise (fun a b => a ≤ b)
      ((calculate_moving_average data w).map (fun p => p.fecha)) := by
  refine ⟨cma_length data w, cma_proj data w, ?_⟩
  have hmm : (calculate_moving_average data w).map (fun p => p.fecha)
      = ((calculate_moving_average data w).map
          (fun p => (p.fecha, p.valor))).map Prod.fst := by
    rw [List.map_map]
    rfl
  rw [hmm, cma_proj data w, List.map_map]
  exact List.pairwise_map.mpr (sortByDate_sorted data)

/-- Witness for C10 at the three-row series with window 2. -/
theorem claim10_witness :
    (calculate_moving_average [⟨1, 100⟩, ⟨2, 110⟩, ⟨3, 99⟩] 2).length
        = ([(⟨1, 100⟩ : TRMData), ⟨2, 110⟩, ⟨3, 99⟩] : List TRMData).length ∧
    (calculate_moving_average [⟨1, 100⟩, ⟨2, 110⟩, ⟨3, 99⟩] 2).map
        (fun p => (p.fecha, p.valor))
      = (sortByDate [⟨1, 100⟩, ⟨2, 110⟩, ⟨3, 99⟩]).map
        (fun o => (o.fecha, o.valor)) ∧
    List.Pairwise (fun a b => a ≤ b)
      ((calculate_moving_average [⟨1, 100⟩, ⟨2, 110⟩, ⟨3, 99⟩] 2).map
        (fun p => p.fecha)) :=
  claim10_moving_average_shape [⟨1, 100⟩, ⟨2, 110⟩, ⟨3, 99⟩] 2
    (by decide) (by norm_num)

lemma rollingMean_getElem (vals : List ℚ) (w : Int) (i : Nat)
    (hi : i < (rollingMean vals w).length) :
    (rollingMean vals w)[i] = rollingEntry vals w i := by
  simp [rollingMean]

lemma cma_getD (data : List TRMData) (w : Int) (i : Nat)
    (hi : i < data.length) :
    (calculate_moving_average data w).getD i ⟨0, 0, none, w⟩ =
      { fecha := ((sortByDate data).getD i ⟨0, 0⟩).fecha
        valor := ((sortByDate data).getD i ⟨0, 0⟩).valor
        promedio_movil := rollingEntry ((sortByDate data).map (·.valor)) w i
        window := w } := by
  cases data with
  | nil => simp at hi
  | cons x xs =>
    have hi2 : i < (calculate_moving_average (x :: xs) w).length := by
      rw [cma_length]
      exact hi
    have hi3 : i < (sortByDate (x :: xs)).length := by
      rw [sortByDate_length]
      exact hi
    rw [List.getD_eq_getElem _ _ hi2, List.getD_eq_getElem _ _ hi3]
    show (((sortByDate (x :: xs)).zip
        (rollingMean ((sortByDate (x :: xs)).map (·.valor)) w)).map (fun p =>
        ({ fecha := p.1.fecha, valor := p.1.valor,
           promedio_movil := p.2, window := w } : TRMMovingAverage)))[i] = _
    rw [List.getElem_map, List.getElem_zip, rollingMean_getElem]

lemma vals_getD (df : List TRMData) (i : Nat) (hi : i < df.length) :
    (df.map (·.valor)).getD i 0 = (df.getD i ⟨0, 0⟩).valor := by
  rw [List.getD_eq_getElem _ _ (by simpa using hi),
    List.getD_eq_getElem _ _ hi, List.getElem_map]

/-- C3: for every series, positive window `w` and in-range index `i`, the
moving average at index `i` of the date-sorted series is present iff
`i ≥ w − 1`, in which case it is the arithmetic mean of the trailing `w`
rows `value[i−w+1..i]`; for `w = 1` it equals the value at the point. -/
theorem claim3_moving_average_window (data : List TRMData) (w i : Nat)
    (hw : 1 ≤ w) (hi : i < data.length) :
    (((calculate_moving_average data (w : Int)).getD i
        ⟨0, 0, none, (w : Int)⟩).promedio_movil
      = if w ≤ i + 1 then
          some (mean ((((sortByDate data).map (·.valor)).take (i + 1)).drop
            (i + 1 - w)))
        else none) ∧
    (((calculate_moving_average data (w : Int)).getD i
        ⟨0, 0, none, (w : Int)⟩).promedio_movil.isSome ↔ w - 1 ≤ i) ∧
    (w = 1 → ((calculate_moving_average data (w : Int)).getD i
        ⟨0, 0, none, (w : Int)⟩).promedio_movil
      = some (((calculate_moving_average data (w : Int)).getD i
          ⟨0, 0, none, (w : Int)⟩).valor)) := by
  rw [cma_getD data (w : Int) i hi]
  have hmain : rollingEntry ((sortByDate data).map (·.valor)) (w : Int) i
      = if w ≤ i + 1 then
          some (mean ((((sortByDate data).map (·.valor)).take (i + 1)).drop
            (i + 1 - w)))
        else none := by
    rw [rollingEntry]
    by_cases hcase : w ≤ i + 1
    · rw [if_pos ⟨by exact_mod_cast hw, by simpa [Int.toNat_natCast] using hcase⟩,
        if_pos hcase, Int.toNat_natCast]
    · rw [if_neg (fun hc => hcase (by simpa [Int.toNat_natCast] using hc.2)),
        if_neg hcase]
  refine ⟨hmain, ?_, ?_⟩
  · show (rollingEntry ((sortByDate data).map (·.valor)) (w : Int) i).isSome ↔ _
    rw [hmain]
    by_cases hcase : w ≤ i + 1
    · simp only [if_pos hcase, Option.isSome_some]
      constructor
      · intro _
        omega
      · intro _
        trivial
    · simp only [if_neg hcase, Option.isSome_none]
      constructor
      · intro hfalse
        cases hfalse
      · intro hle
        omega
  · intro hw1
    subst hw1
    have hi3 : i < ((sortByDate data).map (·.valor)).length := by
      simpa [sortByDate_length] using hi
    show rollingEntry ((sortByDate data).map (·.valor)) ((1 : Nat) : Int) i
        = some (((sortByDate data).getD i ⟨0, 0⟩).valor)
    rw [hmain, if_pos (by omega), Nat.add_sub_cancel,
      take_drop_singleton _ i hi3, mean_singleton,
      vals_getD _ i (by simpa [sortByDate_length] using hi)]


/-- Witness for C3 at the three-row series, window 2, index 2. -/
theorem claim3_witness :
    (((calculate_moving_average [⟨1, 100⟩, ⟨2, 110⟩, ⟨3, 99⟩]
        ((2 : Nat) : Int)).getD 2
        ⟨0, 0, none, ((2 : Nat) : Int)⟩).promedio_movil
      = if 2 ≤ 2 + 1 then
          some (mean ((((sortByDate [⟨1, 100⟩, ⟨2, 110⟩, ⟨3, 99⟩]).map
            (·.valor)).take (2 + 1)).drop (2 + 1 - 2)))
        else none) ∧
    (((calculate_moving_average [⟨1, 100⟩, ⟨2, 110⟩, ⟨3, 99⟩]
        ((2 : Nat) : Int)).getD 2
        ⟨0, 0, none, ((2 : Nat) : Int)⟩).promedio_movil.isSome ↔ 2 - 1 ≤ 2) ∧
    (2 = 1 → ((calculate_moving_average [⟨1, 100⟩, ⟨2, 110⟩, ⟨3, 99⟩]
        ((2 : Nat) : Int)).getD 2
        ⟨0, 0, none, ((2 : Nat) : Int)⟩).promedio_movil
      = some (((calculate_moving_average [⟨1, 100⟩, ⟨2, 110⟩, ⟨3, 99⟩]
          ((2 : Nat) : Int)).getD 2
          ⟨0, 0, none, ((2 : Nat) : Int)⟩).valor)) :=
  claim3_moving_average_window [⟨1, 100⟩, ⟨2, 110⟩, ⟨3, 99⟩] 2 2
    (by norm_num) (by decide)

/-- C2: `find_extreme_variations` agrees with the spec description — it
emits a record exactly for the indices `i ≥ 1` of the date-sorted series
whose day-over-day percent change strictly exceeds the threshold in
absolute value (index 0 never appears), and the records come out in
chronological order of the underlying series. -/
theorem claim2_extreme_variations (data : List TRMData) (t : ℚ) :
    find_extreme_variations data t = extremeVariationsSpec data t ∧
    List.Pairwise (fun a b => a ≤ b)
      ((find_extreme_variations data t).map (fun v => v.fecha)) := by
  cases data with
  | nil => exact ⟨rfl, List.Pairwise.nil⟩
  | cons x xs =>
    have step1 : find_extreme_variations (x :: xs) t
        = ((List.range (sortByDate (x :: xs)).length).filter (fun i =>
            match pctEntry ((sortByDate (x :: xs)).map (·.valor)) i with
            | none => false
            | some v => decide (t < |v|))).map (fun i =>
            ({ fecha := ((sortByDate (x :: xs)).getD i ⟨0, 0⟩).fecha,
               valor := ((sortByDate (x :: xs)).getD i ⟨0, 0⟩).valor,
               variacion_pct :=
                 (pctEntry ((sortByDate (x :: xs)).map (·.valor)) i).getD 0 }
              : TRMVariation)) := by
      show ((withVarPct (sortByDate (x :: xs))).filter _).map _ = _
      simp only [withVarPct]
      rw [List.filter_map, List.map_map]
      rfl
    have step2 : extremeVariationsSpec (x :: xs) t
        = ((List.range (sortByDate (x :: xs)).length).filter (fun i =>
            decide (1 ≤ i ∧
              t < |(((sortByDate (x :: xs)).map (·.valor)).getD i 0 /
                ((sortByDate (x :: xs)).map (·.valor)).getD (i - 1) 0 - 1)
                * 100|))).map (fun i =>
            ({ fecha := ((sortByDate (x :: xs)).getD i ⟨0, 0⟩).fecha,
               valor := ((sortByDate (x :: xs)).getD i ⟨0, 0⟩).valor,
               variacion_pct :=
                 (((sortByDate (x :: xs)).map (·.valor)).getD i 0 /
                   ((sortByDate (x :: xs)).map (·.valor)).getD (i - 1) 0 - 1)
                 * 100 } : TRMVariation)) := by
      exact filterMap_ite _ _ _
    have hfc : ∀ i ∈ List.range (sortByDate (x :: xs)).length,
        (match pctEntry ((sortByDate (x :: xs)).map (·.valor)) i with
         | none => false
         | some v => decide (t < |v|))
        = decide (1 ≤ i ∧
            t < |(((sortByDate (x :: xs)).map (·.valor)).getD i 0 /
              ((sortByDate (x :: xs)).map (·.valor)).getD (i - 1) 0 - 1)
              * 100|) := by
      intro i _
      cases i with
      | zero => simp [pctEntry]
      | succ j =>
        have h1 : (1 : Nat) ≤ j + 1 := Nat.succ_le_succ (Nat.zero_le j)
        simp [pctEntry, h1]
    have heq : find_extreme_variations (x :: xs) t
        = extremeVariationsSpec (x :: xs) t := by
      rw [step1, step2, List.filter_congr hfc]
      refine List.map_congr_left ?_
      intro i hi
      have hmem := List.mem_filter.mp hi
      have hP := of_decide_eq_true hmem.2
      have hne : i ≠ 0 := by omega
      simp [pctEntry, hne]
    refine ⟨heq, ?_⟩
    rw [heq, step2, List.map_map]
    refine List.pairwise_map.mpr ?_
    refine ((List.pairwise_lt_range _).filter _).imp_of_mem ?_
    intro i j hi hj hij
    have hi2 : i < (sortByDate (x :: xs)).length :=
      List.mem_range.mp (List.mem_filter.mp hi).1
    have hj2 : j < (sortByDate (x :: xs)).length :=
      List.mem_range.mp (List.mem_filter.mp hj).1
    have hrel := @List.Sorted.rel_get_of_lt TRMData dateLe _
      (sortByDate_sorted (x :: xs)) ⟨i, hi2⟩ ⟨j, hj2⟩
      (Fin.mk_lt_mk.mpr hij)
    show ((sortByDate (x :: xs)).getD i ⟨0, 0⟩).fecha
        ≤ ((sortByDate (x :: xs)).getD j ⟨0, 0⟩).fecha
    rw [List.getD_eq_getElem _ _ hi2, List.getD_eq_getElem _ _ hj2]
    exact hrel
